import Mathlib

/-!
Verification of the CMake-Tutorials square-root utility.

Shallow embedding of:
- `src/CMakeTutorial/tutorial.cxx` (the driver `main`),
- `src/CMakeTutorial/MathFunctions/MathFunctions.cxx` (`mathfunctions::sqrt`
  dispatching on the build flag `USE_MYMATH`),
- the two square-root backends.  The bodies of the internal routine
  (`mysqrt` / `detail::sqrt`, files `mysqrt.h`/`mysqrt.cxx`) and of the
  platform `std::sqrt` are not in the repository snapshot, so they are
  modelled from the specification: the internal backend as the exact
  Newton (Heron) iteration with N = 10 iterations and seed x over exact
  rationals, the standard backend as the exact real square root.

Machine doubles are modelled by exact arithmetic (`ℚ` for the executable
internal backend, `ℝ` for the idealised platform backend) extended with an
explicit not-a-number sentinel `Flt.nan`.
-/

/-- Machine floating-point values, modelled as an exact number of type `α`
or the not-a-number sentinel.  Infinities are outside the modelled range;
every claim below quantifies over finite values only. -/
inductive Flt (α : Type) where
  | nan : Flt α
  | val : α → Flt α
deriving DecidableEq

/-- Host floating-point equality: the not-a-number sentinel compares unequal
to everything, itself included; finite values compare exactly. -/
def feq {α : Type} : Flt α → Flt α → Prop
  | Flt.val a, Flt.val b => a = b
  | _, _ => False

/-- One Newton (Heron) update y ← 0.5·(y + x/y), from the spec §4.1. -/
def newtonStep (x y : ℚ) : ℚ :=
  (y + x / y) / 2

/-- The Newton update applied `n` times starting from `y`. -/
def newtonIter : ℕ → ℚ → ℚ → ℚ
  | 0, _, y => y
  | n + 1, x, y => newtonIter n x (newtonStep x y)

/-- Modelled from the spec: the internal backend routine (`mysqrt`, whose
defining files `mysqrt.h`/`mysqrt.cxx` are missing from the snapshot), over
exact rationals in place of IEEE doubles.  Negative input yields the
not-a-number sentinel, zero returns zero exactly, otherwise N = 10 Newton
iterations from seed y₀ = x. -/
def mysqrt (x : ℚ) : Flt ℚ :=
  if x < 0 then Flt.nan
  else if x = 0 then Flt.val 0
  else Flt.val (newtonIter 10 x x)

/-- The internal backend extended to floating-point values: a not-a-number
input propagates (spec §4.1: negative/not-a-number inputs produce a
not-a-number result). -/
def mysqrtF : Flt ℚ → Flt ℚ
  | Flt.nan => Flt.nan
  | Flt.val x => mysqrt x

/-- Modelled from the spec: the platform standard-library square root
(`std::sqrt`, external to the repository), idealised over exact reals:
zero maps to zero, negative input to the not-a-number sentinel, otherwise
the true square root. -/
noncomputable def stdSqrtF : Flt ℝ → Flt ℝ
  | Flt.nan => Flt.nan
  | Flt.val x => if x < 0 then Flt.nan else Flt.val (Real.sqrt x)

/-- Modelled from the spec: `detail::sqrt` as called by
`mathfunctions::sqrt` in `MathFunctions.cxx` under `USE_MYMATH`; declared in
the missing `mysqrt.h` and, per the spec, the same internal routine as the
`mysqrt` the driver calls. -/
def detailSqrt : Flt ℚ → Flt ℚ := mysqrtF

/-- The square-root computation of the driver `tutorial.cxx` lines 31–35:
under `USE_MYMATH` it calls `mysqrt`, otherwise the platform `sqrt`
(passed in as `platformSqrt`, the same platform function that
`MathFunctions.cxx` reaches as `std::sqrt`). -/
def tutorialSqrt (useMyMath : Bool) (platformSqrt : Flt ℚ → Flt ℚ) : Flt ℚ → Flt ℚ :=
  if useMyMath then mysqrtF else platformSqrt

/-- The library dispatch `mathfunctions::sqrt` from `MathFunctions.cxx`:
under `USE_MYMATH` it returns `detail::sqrt(x)`, otherwise
`std::sqrt(x)`. -/
def mathfunctionsSqrt (useMyMath : Bool) (platformSqrt : Flt ℚ → Flt ℚ) : Flt ℚ → Flt ℚ :=
  if useMyMath then detailSqrt else platformSqrt

/-- Longest trailing run of characters of `s` satisfying `p`. -/
def trailingRun (p : Char → Bool) (s : List Char) : List Char :=
  (s.reverse.takeWhile p).reverse

/-- Characters the driver's regex `[^\\|/]+$` excludes from the basename:
inside the character class the bar is a literal, so backslash, bar and
forward slash all act as separators. -/
def sepChar (c : Char) : Bool :=
  c == '/' || c == '\\' || c == '|'

/-- The basename the driver prints: the maximal trailing run of
non-separator characters of the zeroth argument (`std::regex_search` with
`[^\\|/]+$`; when there is no match, `match[0]` prints as the empty
string, which coincides with the empty trailing run). -/
def tutorialBasename (s : String) : String :=
  String.mk (trailingRun (fun c => !(sepChar c)) s.toList)

/-- Separators according to the specification's basename rule: forward
slash and backslash only. -/
def specSepChar (c : Char) : Bool :=
  c == '/' || c == '\\'

/-- The basename as the specification words it: the trailing run of
characters containing neither slash nor backslash. -/
def specBasename (s : String) : String :=
  String.mk (trailingRun (fun c => !(specSepChar c)) s.toList)

/-- Observable outcome of one driver run: the lines written to standard
output, in order, and the exit code. -/
structure ProcResult where
  out : List String
  exitCode : ℕ
deriving DecidableEq

/-- The driver `main` of `tutorial.cxx`, parametrised by the selected
square-root backend `sqrtF`, the version constants, the platform decimal
parser `parse` (`std::stod`; `none` models the parse-failure exception,
which the driver does not catch) and the platform formatting of reals
`fmt` (`operator<<` on doubles).  `arg0` is the zeroth argument, `args`
the positional arguments.  Result `none` models abnormal termination. -/
def driver {α : Type} (sqrtF : α → α) (vMaj vMin : ℕ)
    (parse : String → Option α) (fmt : α → String)
    (arg0 : String) (args : List String) : Option ProcResult :=
  match args with
  | [] =>
      some ⟨[tutorialBasename arg0 ++ " Version " ++ toString vMaj ++ "." ++ toString vMin,
             "Usage: " ++ tutorialBasename arg0 ++ " number"], 1⟩
  | a1 :: _ =>
      match parse a1 with
      | none => none
      | some x => some ⟨["The square root of " ++ fmt x ++ " is " ++ fmt (sqrtF x)], 0⟩

/-- Relative residual of `r` as a square root of `x`, from spec §8. -/
def relResidual (r x : ℚ) : ℚ :=
  |r ^ 2 - x| / max 1 x

/-- Auxiliary recurrence for the relative residual of the Newton iterates:
if uₖ = (yₖ² − x)/x then uₖ₊₁ = uₖ²/(4·(uₖ + 1)). -/
def residIter : ℕ → ℚ → ℚ
  | 0, u => u
  | n + 1, u => residIter n (u ^ 2 / (4 * (u + 1)))

lemma newtonStep_pos {x y : ℚ} (hx : 0 < x) (hy : 0 < y) : 0 < newtonStep x y := by
  unfold newtonStep
  positivity

lemma newtonIter_pos (k : ℕ) {x : ℚ} (hx : 0 < x) :
    ∀ {y : ℚ}, 0 < y → 0 < newtonIter k x y := by
  induction k with
  | zero => intro y hy; exact hy
  | succ n ih => intro y hy; exact ih (newtonStep_pos hx hy)

lemma le_sq_newtonStep {x y : ℚ} (hx : 0 < x) (hy : 0 < y) :
    x ≤ newtonStep x y ^ 2 := by
  have hy0 : y ≠ 0 := ne_of_gt hy
  have key : newtonStep x y ^ 2 - x = ((y ^ 2 - x) / (2 * y)) ^ 2 := by
    unfold newtonStep
    field_simp
    ring
  nlinarith [sq_nonneg ((y ^ 2 - x) / (2 * y))]

lemma le_sq_newtonIter (k : ℕ) {x : ℚ} (hx : 0 < x) :
    ∀ {y : ℚ}, 0 < y → x ≤ y ^ 2 → x ≤ newtonIter k x y ^ 2 := by
  induction k with
  | zero => intro y _ hsq; exact hsq
  | succ n ih =>
      intro y hy _
      exact ih (newtonStep_pos hx hy) (le_sq_newtonStep hx hy)

lemma newtonStep_mono {a b ya yb : ℚ} (ha : 0 < a) (hab : a ≤ b)
    (hya : 0 < ya) (hyb : 0 < yb) (hy : ya ≤ yb) (hsq : a ≤ ya ^ 2) :
    newtonStep a ya ≤ newtonStep b yb := by
  have hya0 : ya ≠ 0 := ne_of_gt hya
  have hyb0 : yb ≠ 0 := ne_of_gt hyb
  have hprod : a ≤ ya * yb := by nlinarith
  have inner : ya + a / ya ≤ yb + b / yb := by
    have e : a / ya - b / yb = (a * yb - b * ya) / (ya * yb) := by
      field_simp
      ring
    have hbound : (a * yb - b * ya) / (ya * yb) ≤ yb - ya := by
      rw [div_le_iff (by positivity)]
      nlinarith [mul_nonneg (sub_nonneg.2 hy) (sub_nonneg.2 hprod),
        mul_nonneg hya.le (sub_nonneg.2 hab)]
    have := e ▸ hbound
    linarith
  unfold newtonStep
  linarith

lemma newtonIter_mono (k : ℕ) :
    ∀ {a b ya yb : ℚ}, 0 < a → a ≤ b → 0 < ya → 0 < yb → ya ≤ yb →
      a ≤ ya ^ 2 → newtonIter k a ya ≤ newtonIter k b yb := by
  induction k with
  | zero => intro a b ya yb _ _ _ _ hy _; exact hy
  | succ n ih =>
      intro a b ya yb ha hab hya hyb hy hsq
      have hb : 0 < b := lt_of_lt_of_le ha hab
      exact ih ha hab (newtonStep_pos ha hya) (newtonStep_pos hb hyb)
        (newtonStep_mono ha hab hya hyb hy hsq) (le_sq_newtonStep ha hya)

lemma newtonStep_half {x y : ℚ} (hx : 0 < x) (hy : 0 < y) :
    y / 2 ≤ newtonStep x y := by
  have h : 0 ≤ x / y := by positivity
  unfold newtonStep
  linarith

lemma newtonIter_half (k : ℕ) :
    ∀ {x y : ℚ}, 0 < x → 0 < y → y / 2 ^ k ≤ newtonIter k x y := by
  induction k with
  | zero => intro x y _ _; simp [newtonIter]
  | succ n ih =>
      intro x y hx hy
      have h1 : y / 2 ^ (n + 1) = (y / 2) / 2 ^ n := by ring
      have h2 : (y / 2) / 2 ^ n ≤ newtonStep x y / 2 ^ n :=
        (div_le_div_right (by positivity)).2 (newtonStep_half hx hy)
      have h3 : newtonStep x y / 2 ^ n ≤ newtonIter n x (newtonStep x y) :=
        ih hx (newtonStep_pos hx hy)
      have h4 : newtonIter (n + 1) x y = newtonIter n x (newtonStep x y) := rfl
      rw [h4, h1]
      linarith

lemma residIter_nonneg (k : ℕ) : ∀ {u : ℚ}, 0 ≤ u → 0 ≤ residIter k u := by
  induction k with
  | zero => intro u hu; exact hu
  | succ n ih =>
      intro u hu
      exact ih (div_nonneg (sq_nonneg u) (by linarith))

lemma residIter_mono (k : ℕ) :
    ∀ {u v : ℚ}, 0 ≤ u → u ≤ v → residIter k u ≤ residIter k v := by
  induction k with
  | zero => intro u v _ huv; exact huv
  | succ n ih =>
      intro u v hu huv
      have hv : 0 ≤ v := le_trans hu huv
      have hgu : (0 : ℚ) ≤ u ^ 2 / (4 * (u + 1)) :=
        div_nonneg (sq_nonneg u) (by linarith)
      have hg : u ^ 2 / (4 * (u + 1)) ≤ v ^ 2 / (4 * (v + 1)) := by
        rw [div_le_div_iff (by linarith) (by linarith)]
        nlinarith [mul_nonneg (mul_nonneg hu hv) (sub_nonneg.2 huv),
          mul_nonneg (add_nonneg hu hv) (sub_nonneg.2 huv)]
      exact ih hgu hg

lemma newtonIter_resid (k : ℕ) :
    ∀ {x y : ℚ}, 0 < x → 0 < y →
      newtonIter k x y ^ 2 - x = x * residIter k ((y ^ 2 - x) / x) := by
  induction k with
  | zero =>
      intro x y hx _
      have hx0 : x ≠ 0 := ne_of_gt hx
      simp [newtonIter, residIter]
      field_simp
  | succ n ih =>
      intro x y hx hy
      have hx0 : x ≠ 0 := ne_of_gt hx
      have hy0 : y ≠ 0 := ne_of_gt hy
      have hstep : 0 < newtonStep x y := newtonStep_pos hx hy
      have harg : (newtonStep x y ^ 2 - x) / x =
          ((y ^ 2 - x) / x) ^ 2 / (4 * ((y ^ 2 - x) / x + 1)) := by
        have hden : (y ^ 2 - x) / x + 1 = y ^ 2 / x := by
          field_simp
        rw [hden]
        unfold newtonStep
        field_simp
        ring
      have e1 : newtonIter (n + 1) x y = newtonIter n x (newtonStep x y) := rfl
      have e2 : residIter (n + 1) ((y ^ 2 - x) / x) =
          residIter n (((y ^ 2 - x) / x) ^ 2 / (4 * ((y ^ 2 - x) / x + 1))) := rfl
      rw [e1, ih hx hstep, harg, e2]

/-- C6: MathLib.sqrt(0) returns 0 exactly, under both the standard-library
backend and the internal backend. -/
theorem c6_sqrt_zero_eq_zero :
    mysqrtF (Flt.val 0) = Flt.val 0 ∧ stdSqrtF (Flt.val 0) = Flt.val 0 := by
  constructor
  · decide
  · have e : stdSqrtF (Flt.val 0) =
        if (0 : ℝ) < 0 then Flt.nan else Flt.val (Real.sqrt 0) := rfl
    rw [e, if_neg (lt_irrefl (0 : ℝ)), Real.sqrt_zero]

/-- C9: idempotence of the internal backend's Newton update at an exact
root: for y with y² = x exactly (y nonzero, as throughout the iteration),
one application of y ← 0.5·(y + x/y) yields y again. -/
theorem c9_newton_idempotent_at_root (x y : ℚ) (hy : y ≠ 0) (hsq : y ^ 2 = x) :
    newtonStep x y = y := by
  unfold newtonStep
  rw [← hsq]
  field_simp
  ring

/-- Witness for C9 at x = 4, y = 2. -/
theorem c9_witness :
    (2 : ℚ) ≠ 0 ∧ (2 : ℚ) ^ 2 = 4 ∧ newtonStep 4 2 = 2 :=
  ⟨by norm_num, by norm_num,
    c9_newton_idempotent_at_root 4 2 (by norm_num) (by norm_num)⟩

/-- C5: for all x < 0 the square root is the not-a-number sentinel, unequal
to itself under host equality, for both backends; the driver prints the
not-a-number result verbatim and still returns exit code 0. -/
theorem c5_negative_gives_nan :
    (∀ x : ℚ, x < 0 → ¬ feq (mysqrtF (Flt.val x)) (mysqrtF (Flt.val x))) ∧
    (∀ x : ℝ, x < 0 → ¬ feq (stdSqrtF (Flt.val x)) (stdSqrtF (Flt.val x))) ∧
    (∀ (platformSqrt : Flt ℚ → Flt ℚ) (vM vm : ℕ)
       (parse : String → Option (Flt ℚ)) (fmt : Flt ℚ → String)
       (a0 a1 : String) (rest : List String) (x : ℚ),
       parse a1 = some (Flt.val x) → x < 0 →
       driver (tutorialSqrt true platformSqrt) vM vm parse fmt a0 (a1 :: rest) =
         some ⟨["The square root of " ++ fmt (Flt.val x) ++ " is " ++ fmt Flt.nan], 0⟩) ∧
    (∀ (vM vm : ℕ) (parse : String → Option (Flt ℝ)) (fmt : Flt ℝ → String)
       (a0 a1 : String) (rest : List String) (x : ℝ),
       parse a1 = some (Flt.val x) → x < 0 →
       driver stdSqrtF vM vm parse fmt a0 (a1 :: rest) =
         some ⟨["The square root of " ++ fmt (Flt.val x) ++ " is " ++ fmt Flt.nan], 0⟩) := by
  refine ⟨?_, ?_, ?_, ?_⟩
  · intro x hx
    have e : mysqrtF (Flt.val x) = Flt.nan := by
      show mysqrt x = Flt.nan
      unfold mysqrt
      rw [if_pos hx]
    rw [e]
    exact fun h => h
  · intro x hx
    have e : stdSqrtF (Flt.val x) = Flt.nan := by
      show (if x < 0 then Flt.nan else Flt.val (Real.sqrt x)) = Flt.nan
      rw [if_pos hx]
    rw [e]
    exact fun h => h
  · intro s vM vm parse fmt a0 a1 rest x hp hx
    have e : tutorialSqrt true s (Flt.val x) = Flt.nan := by
      show mysqrtF (Flt.val x) = Flt.nan
      show mysqrt x = Flt.nan
      unfold mysqrt
      rw [if_pos hx]
    simp [driver, hp, e]
  · intro vM vm parse fmt a0 a1 rest x hp hx
    have e : stdSqrtF (Flt.val x) = Flt.nan := by
      show (if x < 0 then Flt.nan else Flt.val (Real.sqrt x)) = Flt.nan
      rw [if_pos hx]
    simp [driver, hp, e]

/-- Witness for C5 at x = −1 for both backends and both driver runs. -/
theorem c5_witness :
    ¬ feq (mysqrtF (Flt.val (-1))) (mysqrtF (Flt.val (-1))) ∧
    ¬ feq (stdSqrtF (Flt.val (-1 : ℝ))) (stdSqrtF (Flt.val (-1 : ℝ))) ∧
    driver (tutorialSqrt true id) 3 1 (fun _ => some (Flt.val (-1 : ℚ)))
        (fun _ => "nan") "prog" ["-1"] =
      some ⟨["The square root of nan is nan"], 0⟩ ∧
    driver stdSqrtF 3 1 (fun _ => some (Flt.val (-1 : ℝ)))
        (fun _ => "nan") "prog" ["-1"] =
      some ⟨["The square root of nan is nan"], 0⟩ :=
  ⟨c5_negative_gives_nan.1 (-1) (by norm_num),
   c5_negative_gives_nan.2.1 (-1) (by norm_num),
   c5_negative_gives_nan.2.2.1 id 3 1 _ _ "prog" "-1" [] (-1) rfl (by norm_num),
   c5_negative_gives_nan.2.2.2 3 1 _ _ "prog" "-1" [] (-1) rfl (by norm_num)⟩

lemma residIter_le_millionth : residIter 10 (9999 : ℚ) ≤ 1 / 1000000 := by
  norm_num [residIter]

/-- C7 (amended): the relative residual bound |r² − x| / max(1,x) ≤ 1e-6
holds for the internal backend for 1 ≤ x ≤ 10⁴ (exact-arithmetic model of
the N = 10 iteration), and for the standard backend for all x ≥ 1; with
seed x and only ten iterations it fails for large x (see the
counterexample at x = 10¹⁰). -/
theorem c7_residual_bound_amended :
    (∀ x : ℚ, 1 ≤ x → x ≤ 10000 →
      ∃ r, mysqrtF (Flt.val x) = Flt.val r ∧ relResidual r x ≤ 1 / 1000000) ∧
    (∀ x : ℝ, 1 ≤ x →
      ∃ r, stdSqrtF (Flt.val x) = Flt.val r ∧ |r ^ 2 - x| / max 1 x ≤ 1 / 1000000) := by
  constructor
  · intro x h1 h2
    have hx : 0 < x := by linarith
    have e : mysqrtF (Flt.val x) = Flt.val (newtonIter 10 x x) := by
      show mysqrt x = _
      unfold mysqrt
      rw [if_neg (not_lt.2 hx.le), if_neg hx.ne']
    refine ⟨_, e, ?_⟩
    have hres : newtonIter 10 x x ^ 2 - x = x * residIter 10 ((x ^ 2 - x) / x) :=
      newtonIter_resid 10 hx hx
    have harg : (x ^ 2 - x) / x = x - 1 := by
      field_simp
      ring
    rw [harg] at hres
    have hmono : residIter 10 (x - 1) ≤ residIter 10 9999 :=
      residIter_mono 10 (by linarith) (by linarith)
    have hnn : 0 ≤ residIter 10 (x - 1) := residIter_nonneg 10 (by linarith)
    unfold relResidual
    rw [hres, abs_of_nonneg (mul_nonneg hx.le hnn), max_eq_right h1,
      mul_comm, mul_div_assoc, div_self hx.ne', mul_one]
    linarith [residIter_le_millionth]
  · intro x h1
    have hx : (0 : ℝ) ≤ x := by linarith
    refine ⟨Real.sqrt x, ?_, ?_⟩
    · show (if x < 0 then Flt.nan else Flt.val (Real.sqrt x)) = Flt.val (Real.sqrt x)
      rw [if_neg (not_lt.2 hx)]
    · rw [Real.sq_sqrt hx, sub_self, abs_zero, zero_div]
      norm_num

/-- Witness for the amended C7 at x = 4 for both backends. -/
theorem c7_witness :
    (1 : ℚ) ≤ 4 ∧ (4 : ℚ) ≤ 10000 ∧
    (∃ r, mysqrtF (Flt.val (4 : ℚ)) = Flt.val r ∧ relResidual r 4 ≤ 1 / 1000000) ∧
    (1 : ℝ) ≤ 4 ∧
    (∃ r, stdSqrtF (Flt.val (4 : ℝ)) = Flt.val r ∧ |r ^ 2 - 4| / max 1 4 ≤ 1 / 1000000) :=
  ⟨by norm_num, by norm_num,
   c7_residual_bound_amended.1 4 (by norm_num) (by norm_num),
   by norm_num,
   c7_residual_bound_amended.2 4 (by norm_num)⟩

/-- C7 counterexample: at x = 10¹⁰ the internal backend's ten Newton
iterations from seed x stay above x/2¹⁰ = 9765625, so the relative
residual exceeds 1e-6 by nine orders of magnitude; the claimed bound for
all finite x ≥ 1 is false. -/
theorem c7_counterexample :
    ¬ ∃ r : ℚ, mysqrtF (Flt.val (10 ^ 10 : ℚ)) = Flt.val r ∧
      relResidual r (10 ^ 10) ≤ 1 / 1000000 := by
  rintro ⟨r, hr, hle⟩
  have hx : (0 : ℚ) < 10 ^ 10 := by norm_num
  have e : mysqrtF (Flt.val (10 ^ 10 : ℚ)) =
      Flt.val (newtonIter 10 (10 ^ 10) (10 ^ 10)) := by
    show mysqrt _ = _
    unfold mysqrt
    rw [if_neg (not_lt.2 hx.le), if_neg hx.ne']
  rw [e] at hr
  have hr2 : r = newtonIter 10 (10 ^ 10) (10 ^ 10) := by
    injection hr with h
    exact h.symm
  have hhalf : (10 ^ 10 : ℚ) / 2 ^ 10 ≤ newtonIter 10 (10 ^ 10) (10 ^ 10) :=
    newtonIter_half 10 hx hx
  have hlb : (9765625 : ℚ) ≤ r := by
    rw [hr2]
    have he : (10 ^ 10 : ℚ) / 2 ^ 10 = 9765625 := by norm_num
    rw [he] at hhalf
    exact hhalf
  have hsqv : (9765625 : ℚ) ^ 2 = 95367431640625 := by norm_num
  have hsq : (95367431640625 : ℚ) ≤ r ^ 2 := by nlinarith
  unfold relResidual at hle
  rw [abs_of_nonneg (by nlinarith), max_eq_right (by norm_num),
    div_le_div_iff (by norm_num) (by norm_num)] at hle
  nlinarith

/-- C3: with no positional argument the driver writes exactly the version
banner line and then the usage line, in this order, and returns exit
code 1. -/
theorem c3_usage_banner (α : Type) (sqrtF : α → α) (vMaj vMin : ℕ)
    (parse : String → Option α) (fmt : α → String) (a0 : String) :
    driver sqrtF vMaj vMin parse fmt a0 [] =
      some ⟨[tutorialBasename a0 ++ " Version " ++ toString vMaj ++ "." ++ toString vMin,
             "Usage: " ++ tutorialBasename a0 ++ " number"], 1⟩ := rfl

/-- C4: with at least one positional argument that parses as a real, the
driver writes exactly one line "The square root of <input> is <output>"
and returns exit code 0. -/
theorem c4_success_line (α : Type) (sqrtF : α → α) (vMaj vMin : ℕ)
    (parse : String → Option α) (fmt : α → String) (a0 a1 : String)
    (rest : List String) (x : α) (hp : parse a1 = some x) :
    driver sqrtF vMaj vMin parse fmt a0 (a1 :: rest) =
      some ⟨["The square root of " ++ fmt x ++ " is " ++ fmt (sqrtF x)], 0⟩ := by
  simp [driver, hp]

/-- Witness for C4 on the run "prog 4" under the internal backend. -/
theorem c4_witness :
    driver mysqrtF 3 1 (fun _ => some (Flt.val (4 : ℚ))) (fun _ => "2")
        "prog" ["4"] =
      some ⟨["The square root of 2 is 2"], 0⟩ :=
  c4_success_line (Flt ℚ) mysqrtF 3 1 (fun _ => some (Flt.val 4)) (fun _ => "2")
    "prog" "4" [] (Flt.val 4) rfl

/-- C10: positional arguments after the first never influence the driver's
output or exit status: any run with extra arguments is observationally
identical to the run keeping only the first. -/
theorem c10_extra_args_ignored (α : Type) (sqrtF : α → α) (vMaj vMin : ℕ)
    (parse : String → Option α) (fmt : α → String) (a0 a1 : String)
    (rest : List String) :
    driver sqrtF vMaj vMin parse fmt a0 (a1 :: rest) =
      driver sqrtF vMaj vMin parse fmt a0 [a1] := rfl

/-- C1: for either build configuration and any input parsing to a value x,
the result the driver prints is exactly `mathfunctions::sqrt` applied to
x: the driver's own `#ifdef` dispatch coincides with the library dispatch,
so no other computation path produces the printed value. -/
theorem c1_driver_refines_mathfunctions_sqrt (useMyMath : Bool)
    (platformSqrt : Flt ℚ → Flt ℚ) (vMaj vMin : ℕ)
    (parse : String → Option (Flt ℚ)) (fmt : Flt ℚ → String)
    (a0 a1 : String) (rest : List String) (x : Flt ℚ)
    (hp : parse a1 = some x) :
    driver (tutorialSqrt useMyMath platformSqrt) vMaj vMin parse fmt a0 (a1 :: rest) =
      some ⟨["The square root of " ++ fmt x ++ " is " ++
             fmt (mathfunctionsSqrt useMyMath platformSqrt x)], 0⟩ := by
  have e : tutorialSqrt useMyMath platformSqrt =
      mathfunctionsSqrt useMyMath platformSqrt := by
    cases useMyMath <;> rfl
  rw [e]
  simp [driver, hp]

/-- Witness for C1 with the internal backend selected, on the run
"prog 4". -/
theorem c1_witness :
    driver (tutorialSqrt true id) 3 1 (fun _ => some (Flt.val (4 : ℚ)))
        (fun _ => "q") "prog" ["4"] =
      some ⟨["The square root of q is q"], 0⟩ :=
  c1_driver_refines_mathfunctions_sqrt true id 3 1
    (fun _ => some (Flt.val 4)) (fun _ => "q") "prog" "4" [] (Flt.val 4) rfl

/-- C8: monotonicity of the square root under both backends: for
0 ≤ a ≤ b the computed roots exist (no not-a-number) and are ordered. -/
theorem c8_sqrt_monotone :
    (∀ a b : ℚ, 0 ≤ a → a ≤ b →
      ∃ ra rb, mysqrtF (Flt.val a) = Flt.val ra ∧
        mysqrtF (Flt.val b) = Flt.val rb ∧ ra ≤ rb) ∧
    (∀ a b : ℝ, 0 ≤ a → a ≤ b →
      ∃ ra rb, stdSqrtF (Flt.val a) = Flt.val ra ∧
        stdSqrtF (Flt.val b) = Flt.val rb ∧ ra ≤ rb) := by
  constructor
  · intro a b ha hab
    have hb : 0 ≤ b := le_trans ha hab
    rcases eq_or_lt_of_le ha with h0 | hpos
    · rcases eq_or_lt_of_le hb with hb0 | hbpos
      · refine ⟨0, 0, ?_, ?_, le_refl 0⟩
        · rw [← h0]; decide
        · rw [← hb0]; decide
      · refine ⟨0, newtonIter 10 b b, ?_, ?_,
          le_of_lt (newtonIter_pos 10 hbpos hbpos)⟩
        · rw [← h0]; decide
        · show mysqrt b = _
          unfold mysqrt
          rw [if_neg (not_lt.2 hb), if_neg (ne_of_gt hbpos)]
    · have hbpos : 0 < b := lt_of_lt_of_le hpos hab
      have estep : ∀ c : ℚ, 0 < c → newtonStep c c = (c + 1) / 2 := by
        intro c hc
        unfold newtonStep
        rw [div_self (ne_of_gt hc)]
      have kA : newtonIter 10 a a = newtonIter 9 a ((a + 1) / 2) := by
        show newtonIter 9 a (newtonStep a a) = _
        rw [estep a hpos]
      have kB : newtonIter 10 b b = newtonIter 9 b ((b + 1) / 2) := by
        show newtonIter 9 b (newtonStep b b) = _
        rw [estep b hbpos]
      refine ⟨newtonIter 10 a a, newtonIter 10 b b, ?_, ?_, ?_⟩
      · show mysqrt a = _
        unfold mysqrt
        rw [if_neg (not_lt.2 ha), if_neg (ne_of_gt hpos)]
      · show mysqrt b = _
        unfold mysqrt
        rw [if_neg (not_lt.2 hb), if_neg (ne_of_gt hbpos)]
      · rw [kA, kB]
        exact newtonIter_mono 9 hpos hab (by linarith) (by linarith) (by linarith)
          (by nlinarith [sq_nonneg (a - 1)])
  · intro a b ha hab
    have hb : (0 : ℝ) ≤ b := le_trans ha hab
    refine ⟨Real.sqrt a, Real.sqrt b, ?_, ?_, Real.sqrt_le_sqrt hab⟩
    · show (if a < 0 then Flt.nan else Flt.val (Real.sqrt a)) = Flt.val (Real.sqrt a)
      rw [if_neg (not_lt.2 ha)]
    · show (if b < 0 then Flt.nan else Flt.val (Real.sqrt b)) = Flt.val (Real.sqrt b)
      rw [if_neg (not_lt.2 hb)]

/-- Witness for C8 at a = 1, b = 4 for both backends. -/
theorem c8_witness :
    (0 : ℚ) ≤ 1 ∧ (1 : ℚ) ≤ 4 ∧
    (∃ ra rb, mysqrtF (Flt.val (1 : ℚ)) = Flt.val ra ∧
      mysqrtF (Flt.val (4 : ℚ)) = Flt.val rb ∧ ra ≤ rb) ∧
    (∃ ra rb, stdSqrtF (Flt.val (1 : ℝ)) = Flt.val ra ∧
      stdSqrtF (Flt.val (4 : ℝ)) = Flt.val rb ∧ ra ≤ rb) :=
  ⟨by norm_num, by norm_num,
   c8_sqrt_monotone.1 1 4 (by norm_num) (by norm_num),
   c8_sqrt_monotone.2 1 4 (by norm_num) (by norm_num)⟩

lemma prefix_takeWhile (p : Char → Bool) :
    ∀ (r l : List Char), r <+: l → (∀ c ∈ r, p c = true) → r <+: l.takeWhile p := by
  intro r
  induction r with
  | nil => intro l _ _; exact List.nil_prefix
  | cons c r ih =>
      intro l hp hall
      obtain ⟨t, rfl⟩ := hp
      have hc : p c = true := hall c (List.mem_cons_self c r)
      rw [List.cons_append, List.takeWhile_cons, if_pos hc]
      exact List.cons_prefix_cons.2
        ⟨rfl, ih (r ++ t) (List.prefix_append r t)
          (fun d hd => hall d (List.mem_cons_of_mem c hd))⟩

lemma trailingRun_suffix (p : Char → Bool) (s : List Char) :
    trailingRun p s <:+ s := by
  unfold trailingRun
  have h2 := List.reverse_suffix.2 (List.takeWhile_prefix (l := s.reverse) p)
  rwa [List.reverse_reverse] at h2

lemma mem_trailingRun {p : Char → Bool} {s : List Char} {c : Char}
    (h : c ∈ trailingRun p s) : p c = true := by
  unfold trailingRun at h
  rw [List.mem_reverse] at h
  exact List.mem_takeWhile_imp h

lemma suffix_trailingRun (p : Char → Bool) (s t : List Char)
    (hst : t <:+ s) (hall : ∀ c ∈ t, p c = true) : t <:+ trailingRun p s := by
  unfold trailingRun
  have h1 : t.reverse <+: s.reverse := List.reverse_prefix.2 hst
  have h2 : t.reverse <+: s.reverse.takeWhile p :=
    prefix_takeWhile p t.reverse s.reverse h1
      (fun c hc => hall c (List.mem_reverse.1 hc))
  have h3 := List.reverse_suffix.2 h2
  rwa [List.reverse_reverse] at h3

/-- C2 (amended): the basename the driver prints in the no-argument branch
is the maximal trailing run of the zeroth argument containing none of the
three separator characters slash, backslash and vertical bar (the regex
character class `[^\\|/]` makes the bar a separator too, not only slash
and backslash); the run may be empty and the extraction is total, so an
empty zeroth argument does not crash. -/
theorem c2_basename_amended (α : Type) (sqrtF : α → α) (vMaj vMin : ℕ)
    (parse : String → Option α) (fmt : α → String) (a0 : String) :
    (driver sqrtF vMaj vMin parse fmt a0 []).isSome = true ∧
    driver sqrtF vMaj vMin parse fmt a0 [] =
      some ⟨[tutorialBasename a0 ++ " Version " ++ toString vMaj ++ "." ++ toString vMin,
             "Usage: " ++ tutorialBasename a0 ++ " number"], 1⟩ ∧
    (tutorialBasename a0).toList <:+ a0.toList ∧
    (∀ c ∈ (tutorialBasename a0).toList, c ≠ '/' ∧ c ≠ '\\' ∧ c ≠ '|') ∧
    (∀ t : List Char, t <:+ a0.toList →
      (∀ c ∈ t, c ≠ '/' ∧ c ≠ '\\' ∧ c ≠ '|') →
      t <:+ (tutorialBasename a0).toList) := by
  have hiff : ∀ c : Char,
      ((fun c => !(sepChar c)) c = true) ↔ (c ≠ '/' ∧ c ≠ '\\' ∧ c ≠ '|') := by
    intro c
    simp [sepChar, and_assoc]
  refine ⟨rfl, rfl, trailingRun_suffix _ _, ?_, ?_⟩
  · intro c hc
    exact (hiff c).1 (mem_trailingRun hc)
  · intro t hst hall
    exact suffix_trailingRun _ _ t hst (fun c hc => (hiff c).2 (hall c hc))

/-- C2 counterexample: on zeroth argument "a|b" the driver prints basename
"b", but the trailing run containing neither slash nor backslash is "a|b":
the vertical bar also acts as a separator, refuting "only those two
characters act as separators". -/
theorem c2_counterexample :
    driver mysqrtF 0 0 (fun _ => none) (fun _ => "") "a|b" [] =
      some ⟨["b Version 0.0", "Usage: b number"], 1⟩ ∧
    specBasename "a|b" = "a|b" ∧
    tutorialBasename "a|b" ≠ specBasename "a|b" := by
  refine ⟨?_, ?_, ?_⟩ <;> decide

/-- Witness for the amended C2 at the empty zeroth argument: the driver
still produces its two-line banner (no crash) and the printed basename is
the empty trailing run. -/
theorem c2_witness :
    (driver mysqrtF 7 2 (fun _ => none) (fun _ => "") "" []).isSome = true ∧
    driver mysqrtF 7 2 (fun _ => none) (fun _ => "") "" [] =
      some ⟨[tutorialBasename "" ++ " Version " ++ toString 7 ++ "." ++ toString 2,
             "Usage: " ++ tutorialBasename "" ++ " number"], 1⟩ ∧
    (tutorialBasename "").toList <:+ "".toList ∧
    (∀ c ∈ (tutorialBasename "").toList, c ≠ '/' ∧ c ≠ '\\' ∧ c ≠ '|') ∧
    (∀ t : List Char, t <:+ "".toList →
      (∀ c ∈ t, c ≠ '/' ∧ c ≠ '\\' ∧ c ≠ '|') →
      t <:+ (tutorialBasename "").toList) :=
  c2_basename_amended (Flt ℚ) mysqrtF 7 2 (fun _ => none) (fun _ => "") ""
